import Mathlib

/-
Verification of the LQR trajectory-tracking controller
(src/Control/LQR_Dynamics_Model.py) against its specification.

Modelling conventions:
* Python floats are idealized as rationals (ℚ); the angle-normalization
  routine is stated generically over a linear ordered field so that the
  claims about the real constant π can be stated over ℝ.
* Transcendental library functions (math.cos, math.sin, math.tan,
  math.hypot / np.hypot) are passed in as function parameters: the claims
  under verification quantify over them, so no property of the concrete
  trigonometric functions is assumed.
* The configuration constants imported from Control.lateral_controller_conf
  (l_f, l_r, c_f, c_r, m_f, m_r, Iz, ts, max_steer_angle, max_acceleration,
  max_speed) are collected in a Config structure and quantified over; every
  claim considered here is symbolic in them.
* numpy.linalg.inv raises LinAlgError on a singular matrix; it is modelled
  as an Option-valued exact inverse (none on a vanishing determinant).
  numpy.linalg.pinv (the Moore-Penrose pseudo-inverse, total) is passed in
  as a function parameter wherever the code calls it.
* Python lists are Lean lists; out-of-range indexing (IndexError) and
  np.argmin on an empty array (ValueError) are modelled by Option.
-/

open Matrix

/-- Gear enum from the source (class Gear). -/
inductive Gear where
  | GEAR_DRIVE : Gear
  | GEAR_REVERSE : Gear
deriving DecidableEq, Repr

/-- Configuration constants imported from Control.lateral_controller_conf
(the file itself is not part of the sources under verification; all claims
are symbolic in these constants, so they are treated as parameters). -/
structure Config where
  l_f : ℚ
  l_r : ℚ
  c_f : ℚ
  c_r : ℚ
  m_f : ℚ
  m_r : ℚ
  Iz : ℚ
  ts : ℚ
  max_steer_angle : ℚ
  max_acceleration : ℚ
  max_speed : ℚ
deriving DecidableEq, Repr

/-- Vehicle state (class VehicleState): pose, speed, cached errors, gear. -/
structure VehicleState where
  x : ℚ
  y : ℚ
  yaw : ℚ
  v : ℚ
  e_cg : ℚ
  theta_e : ℚ
  gear : Gear
deriving DecidableEq, Repr

namespace VehicleState

/-- VehicleState.RegulateInput: clamp delta to ±max_steer_angle and a to
±max_acceleration by the source's sequence of four if-statements. -/
def RegulateInput (cfg : Config) (delta a : ℚ) : ℚ × ℚ :=
  let delta := if delta < -1 * cfg.max_steer_angle then -1 * cfg.max_steer_angle else delta
  let delta := if delta > 1 * cfg.max_steer_angle then 1 * cfg.max_steer_angle else delta
  let a := if a < -1 * cfg.max_acceleration then -1 * cfg.max_acceleration else a
  let a := if a > 1 * cfg.max_acceleration then 1 * cfg.max_acceleration else a
  (delta, a)

/-- VehicleState.RegulateOutput: clamp v to ±(max_speed / 3.6). -/
def RegulateOutput (cfg : Config) (v : ℚ) : ℚ :=
  let max_speed_ := cfg.max_speed / (18 / 5)
  let v := if v < -1 * max_speed_ then -1 * max_speed_ else v
  let v := if v > 1 * max_speed_ then 1 * max_speed_ else v
  v

/-- VehicleState.UpdateVehicleState: forward-Euler bicycle-model step with
input saturation and speed clamping.  cosf, sinf, tanf stand for math.cos,
math.sin, math.tan. -/
def UpdateVehicleState (cosf sinf tanf : ℚ → ℚ) (cfg : Config)
    (s : VehicleState) (delta a e_cg theta_e : ℚ) (gear : Gear) : VehicleState :=
  let wheelbase_ := cfg.l_r + cfg.l_f
  let delta2 := (RegulateInput cfg delta a).1
  let a2 := (RegulateInput cfg delta a).2
  let x := s.x + s.v * cosf s.yaw * cfg.ts
  let y := s.y + s.v * sinf s.yaw * cfg.ts
  let yaw := s.yaw + s.v / wheelbase_ * tanf delta2 * cfg.ts
  let v := if gear = Gear.GEAR_DRIVE then s.v + a2 * cfg.ts else s.v + -1 * a2 * cfg.ts
  { x := x, y := y, yaw := yaw, v := RegulateOutput cfg v,
    e_cg := e_cg, theta_e := theta_e, gear := gear }

end VehicleState

/-- pi_2_pi: single-wrap angle regulation.  The source uses the float
constant math.pi; the function is stated generically so the claims can
instantiate M_PI with the real π. -/
def pi_2_pi {α : Type} [LinearOrderedField α] (M_PI : α) (angle : α) : α :=
  if angle > M_PI then angle - 2 * M_PI
  else if angle < -M_PI then angle + 2 * M_PI
  else angle

namespace LonController

/-- LonController.ComputeControlCommand: proportional speed law with a
near-goal braking override. -/
def ComputeControlCommand (target_speed : ℚ) (vehicle_state : VehicleState)
    (dist : ℚ) : ℚ :=
  let a := 3 / 10 * (target_speed - vehicle_state.v)
  if dist < 11 then
    if vehicle_state.v > 2 then -3
    else if vehicle_state.v < -2 then -1
    else a
  else a

end LonController

/-- Reference-path holder (class TrajectoryAnalyzer): four coordinate
lists, the forward-only search cursor ind_old and the slice end ind_end. -/
structure TrajectoryAnalyzer where
  x_ : List ℚ
  y_ : List ℚ
  yaw_ : List ℚ
  k_ : List ℚ
  ind_old : ℕ
  ind_end : ℕ
deriving DecidableEq, Repr

/-- TrajectoryAnalyzer.__init__: cursor starts at 0, ind_end = len(x). -/
def mkTrajectoryAnalyzer (x y yaw k : List ℚ) : TrajectoryAnalyzer :=
  { x_ := x, y_ := y, yaw_ := yaw, k_ := k, ind_old := 0, ind_end := x.length }

/-- Worker for np.argmin: best value bv at absolute index bi, next absolute
index i; a strictly smaller element replaces the best, so the first
occurrence of the minimum is kept. -/
def argminGo : List ℚ → ℚ → ℕ → ℕ → ℕ
  | [], _, bi, _ => bi
  | y :: ys, bv, bi, i =>
      if y < bv then argminGo ys y i (i + 1) else argminGo ys bv bi (i + 1)

/-- np.argmin on a list: index of the first minimal element; none on an
empty list (numpy raises ValueError there). -/
def argminList (l : List ℚ) : Option ℕ :=
  match l with
  | [] => none
  | x :: xs => some (argminGo xs x 0 1)

/-- Python slice l[a:b]. -/
def sliceList (l : List ℚ) (a b : ℕ) : List ℚ := (l.take b).drop a

/-- The list dx = [x_cg - ix for ix in x_[ind_old:ind_end]]. -/
def dxList (ta : TrajectoryAnalyzer) (vs : VehicleState) : List ℚ :=
  (sliceList ta.x_ ta.ind_old ta.ind_end).map (fun ix => vs.x - ix)

/-- The list dy = [y_cg - iy for iy in y_[ind_old:ind_end]]. -/
def dyList (ta : TrajectoryAnalyzer) (vs : VehicleState) : List ℚ :=
  (sliceList ta.y_ ta.ind_old ta.ind_end).map (fun iy => vs.y - iy)

/-- np.hypot(dx, dy) elementwise; hyp stands for the hypot function. -/
def distList (hyp : ℚ → ℚ → ℚ) (ta : TrajectoryAnalyzer) (vs : VehicleState) :
    List ℚ :=
  List.zipWith hyp (dxList ta vs) (dyList ta vs)

/-- Return value of ToTrajectoryFrame: (theta_e, e_cg, yaw_ref, k_ref). -/
structure TrajFrameOut where
  theta_e : ℚ
  e_cg : ℚ
  yaw_ref : ℚ
  k_ref : ℚ
deriving DecidableEq, Repr

/-- TrajectoryAnalyzer.ToTrajectoryFrame: nearest-point search on the
suffix at the cursor, signed lateral error, heading error, curvature; the
cursor advances by the argmin offset.  hyp, cosf, sinf stand for
math.hypot / np.hypot, math.cos, math.sin; piQ for math.pi.  Returns the
outputs together with the mutated analyzer; none models the runtime errors
(argmin of an empty suffix, out-of-range reads). -/
def ToTrajectoryFrame (hyp : ℚ → ℚ → ℚ) (cosf sinf : ℚ → ℚ) (piQ : ℚ)
    (ta : TrajectoryAnalyzer) (vs : VehicleState) :
    Option (TrajFrameOut × TrajectoryAnalyzer) :=
  match argminList (distList hyp ta vs) with
  | none => none
  | some ind_add =>
    match (dxList ta vs).get? ind_add, (dyList ta vs).get? ind_add with
    | some dxv, some dyv =>
      let dist := hyp dxv dyv
      let dot := cosf (vs.yaw + piQ / 2) * dxv + sinf (vs.yaw + piQ / 2) * dyv
      let e_cg := if dot > 0 then 1 * dist else -1 * dist
      let new_ind := ta.ind_old + ind_add
      match ta.yaw_.get? new_ind, ta.k_.get? new_ind with
      | some yaw_ref, some k_ref =>
          some ({ theta_e := pi_2_pi piQ (vs.yaw - yaw_ref), e_cg := e_cg,
                  yaw_ref := yaw_ref, k_ref := k_ref },
                { ta with ind_old := new_ind })
      | _, _ => none
    | _, _ => none

namespace LatController

/-- LatController.ComputeFeedForward: feedforward steering; only entry
K[0][2] of the gain matrix is read. -/
def ComputeFeedForward (cfg : Config) (vehicle_state : VehicleState)
    (ref_curvature : ℚ) (matrix_k_ : Matrix (Fin 1) (Fin 4) ℚ) : ℚ :=
  let mass_ := cfg.m_f + cfg.m_r
  let wheelbase_ := cfg.l_f + cfg.l_r
  let kv := cfg.l_r * mass_ / 2 / cfg.c_f / wheelbase_ -
            cfg.l_f * mass_ / 2 / cfg.c_r / wheelbase_
  let v := vehicle_state.v
  if vehicle_state.gear = Gear.GEAR_REVERSE then
    wheelbase_ * ref_curvature
  else
    wheelbase_ * ref_curvature + kv * v * v * ref_curvature -
      matrix_k_ 0 2 *
        (cfg.l_r * ref_curvature -
         cfg.l_f * mass_ * v * v * ref_curvature / 2 / cfg.c_r / wheelbase_)

/-- (abs(P_next - P)).max(): largest absolute value of a matrix entry
(0 for the degenerate 0-dimensional case, which numpy rejects). -/
def matMaxAbs {n : ℕ} (M : Matrix (Fin n) (Fin n) ℚ) : ℚ :=
  ((List.finRange n).map
      (fun i => ((List.finRange n).map (fun j => |M i j|)).foldr max 0)).foldr max 0

/-- One body of the Riccati while-loop:
P_next = AT @ P @ A - (AT @ P @ B + M) @ pinv(R + BT @ P @ B) @ (BT @ P @ A + MT) + Q. -/
def riccatiStep {n m : ℕ}
    (pinv : Matrix (Fin m) (Fin m) ℚ → Matrix (Fin m) (Fin m) ℚ)
    (A Q : Matrix (Fin n) (Fin n) ℚ) (B M : Matrix (Fin n) (Fin m) ℚ)
    (R : Matrix (Fin m) (Fin m) ℚ)
    (P : Matrix (Fin n) (Fin n) ℚ) : Matrix (Fin n) (Fin n) ℚ :=
  Aᵀ * P * A - (Aᵀ * P * B + M) * pinv (R + Bᵀ * P * B) * (Bᵀ * P * A + Mᵀ) + Q

/-- The while-loop of SolveLQRProblem with the remaining iteration budget
as fuel: the first pass always runs (diff starts at math.inf) and the loop
exits as soon as the elementwise change is not above the tolerance. -/
def riccatiIter {n : ℕ}
    (step : Matrix (Fin n) (Fin n) ℚ → Matrix (Fin n) (Fin n) ℚ)
    (tol : ℚ) : ℕ → Matrix (Fin n) (Fin n) ℚ → Matrix (Fin n) (Fin n) ℚ
  | 0, P => P
  | fuel + 1, P =>
      let P_next := step P
      if matMaxAbs (P_next - P) > tol then riccatiIter step tol fuel P_next
      else P_next

/-- np.linalg.inv: exact inverse of a square rational matrix, none when the
matrix is singular (numpy raises LinAlgError there). -/
def npLinalgInv {k : ℕ} (M : Matrix (Fin k) (Fin k) ℚ) :
    Option (Matrix (Fin k) (Fin k) ℚ) :=
  if M.det = 0 then none else some (M.det⁻¹ • M.adjugate)

/-- LatController.SolveLQRProblem: cross term M = 0, fixed-point Riccati
iteration from P = Q with np.linalg.pinv inside the loop (passed in as
pinv), then K = np.linalg.inv(BT @ P @ B + R) @ (BT @ P @ A + MT).  The
entry assertion on dimensions is enforced by the Fin types.  The
non-convergence warning print is not modelled (it does not affect the
returned value). -/
def SolveLQRProblem {n m : ℕ}
    (pinv : Matrix (Fin m) (Fin m) ℚ → Matrix (Fin m) (Fin m) ℚ)
    (A : Matrix (Fin n) (Fin n) ℚ) (B : Matrix (Fin n) (Fin m) ℚ)
    (Q : Matrix (Fin n) (Fin n) ℚ) (R : Matrix (Fin m) (Fin m) ℚ)
    (tolerance : ℚ) (max_num_iteration : ℕ) :
    Option (Matrix (Fin m) (Fin n) ℚ) :=
  let M : Matrix (Fin n) (Fin m) ℚ := 0
  let P := riccatiIter (riccatiStep pinv A Q B M R) tolerance max_num_iteration Q
  (npLinalgInv (Bᵀ * P * B + R)).map (fun iv => iv * (Bᵀ * P * A + Mᵀ))

/-- Modelled from the spec: the Riccati update exactly as the spec writes
it, P_next = AᵀPA − AᵀPB (R + BᵀPB)⁻¹ BᵀPA + Q, with the loop inverse
interpreted by the same pseudo-inverse the code uses. -/
def specRiccatiStep {n m : ℕ}
    (pinv : Matrix (Fin m) (Fin m) ℚ → Matrix (Fin m) (Fin m) ℚ)
    (A Q : Matrix (Fin n) (Fin n) ℚ) (B : Matrix (Fin n) (Fin m) ℚ)
    (R : Matrix (Fin m) (Fin m) ℚ)
    (P : Matrix (Fin n) (Fin n) ℚ) : Matrix (Fin n) (Fin n) ℚ :=
  Aᵀ * P * A - Aᵀ * P * B * pinv (R + Bᵀ * P * B) * (Bᵀ * P * A) + Q

/-- Modelled from the spec: iterate until the maximum absolute elementwise
change between successive iterates drops to the tolerance or the iteration
budget is exhausted. -/
def specIterate {n : ℕ}
    (step : Matrix (Fin n) (Fin n) ℚ → Matrix (Fin n) (Fin n) ℚ)
    (tol : ℚ) : ℕ → Matrix (Fin n) (Fin n) ℚ → Matrix (Fin n) (Fin n) ℚ
  | 0, P => P
  | fuel + 1, P =>
      let P_next := step P
      if matMaxAbs (P_next - P) ≤ tol then P_next
      else specIterate step tol fuel P_next

/-- Modelled from the spec: start from P₀ = Q, iterate the spec's Riccati
update, and return the final gain K = (BᵀPB + R)⁻¹ (BᵀPA) from the last
iterate P. -/
def specSolveLQR {n m : ℕ}
    (pinv : Matrix (Fin m) (Fin m) ℚ → Matrix (Fin m) (Fin m) ℚ)
    (A : Matrix (Fin n) (Fin n) ℚ) (B : Matrix (Fin n) (Fin m) ℚ)
    (Q : Matrix (Fin n) (Fin n) ℚ) (R : Matrix (Fin m) (Fin m) ℚ)
    (tolerance : ℚ) (max_num_iteration : ℕ) :
    Option (Matrix (Fin m) (Fin n) ℚ) :=
  let P := specIterate (specRiccatiStep pinv A Q B R) tolerance max_num_iteration Q
  (npLinalgInv (Bᵀ * P * B + R)).map (fun iv => iv * (Bᵀ * P * A))

end LatController

/-! Concrete instances used by witnesses and counterexamples. -/

/-- A squared-distance stand-in for hypot on witness inputs. -/
def hyp0 : ℚ → ℚ → ℚ := fun a b => a * a + b * b

/-- Constant stand-in for math.cos on witness inputs. -/
def cos0 : ℚ → ℚ := fun _ => 1

/-- Constant stand-in for math.sin on witness inputs. -/
def sin0 : ℚ → ℚ := fun _ => 0

/-- Constant stand-in for math.tan on witness inputs. -/
def tan0 : ℚ → ℚ := fun _ => 0

/-- One-point reference path. -/
def ta0 : TrajectoryAnalyzer := mkTrajectoryAnalyzer [0] [0] [0] [0]

/-- Vehicle at the origin in DRIVE. -/
def vs0 : VehicleState := ⟨0, 0, 0, 0, 0, 0, Gear.GEAR_DRIVE⟩

/-- Frame errors of vs0 against ta0. -/
def out0 : TrajFrameOut := ⟨0, 0, 0, 0⟩

/-- A vehicle state in REVERSE with nonzero speed. -/
def vsRev : VehicleState := ⟨0, 0, 0, 5, 0, 0, Gear.GEAR_REVERSE⟩

/-- Concrete configuration: wheelbase l_f + l_r = 2.8 m, max speed
36 km/h (10 m/s), unit stiffnesses and masses. -/
def cfg1 : Config :=
  { l_f := 3/2, l_r := 13/10, c_f := 1, c_r := 1, m_f := 1, m_r := 1,
    Iz := 1, ts := 1/10, max_steer_angle := 1, max_acceleration := 2,
    max_speed := 36 }

/-- The exact Moore-Penrose pseudo-inverse of a 1-by-1 rational matrix. -/
def pinv1 (M : Matrix (Fin 1) (Fin 1) ℚ) : Matrix (Fin 1) (Fin 1) ℚ :=
  Matrix.of fun _ _ => if M 0 0 = 0 then 0 else (M 0 0)⁻¹

/-- Well-formedness of a TrajectoryAnalyzer: ind_end is the (common,
positive) array length and the cursor has not run past the last index. -/
def WFanalyzer (ta : TrajectoryAnalyzer) : Prop :=
  ta.ind_end = ta.x_.length ∧ ta.y_.length = ta.x_.length ∧
  ta.yaw_.length = ta.x_.length ∧ ta.k_.length = ta.x_.length ∧
  0 < ta.x_.length ∧ ta.ind_old ≤ ta.x_.length - 1

/-! Helper lemmas (shared; none of these is a claim theorem). -/

/-- Specification of the np.argmin worker: it either keeps the incoming
best index (the best value being no larger than anything scanned), or
returns the absolute index of the first element strictly below the
incoming best, that element being minimal in the scanned list and strictly
below every earlier scanned element. -/
lemma argminGo_spec (l : List ℚ) : ∀ (bv : ℚ) (bi i : ℕ),
    (argminGo l bv bi i = bi ∧ ∀ z ∈ l, bv ≤ z) ∨
    (∃ k, ∃ hk : k < l.length,
      argminGo l bv bi i = i + k ∧ l.get ⟨k, hk⟩ < bv ∧
      (∀ z ∈ l, l.get ⟨k, hk⟩ ≤ z) ∧
      ∀ j, (hj : j < k) → l.get ⟨k, hk⟩ < l.get ⟨j, hj.trans hk⟩) := by
  induction l with
  | nil =>
      intro bv bi i
      exact Or.inl ⟨rfl, by simp⟩
  | cons y ys ih =>
      intro bv bi i
      by_cases hyv : y < bv
      · rw [argminGo, if_pos hyv]
        rcases ih y i (i + 1) with ⟨heq, hmin⟩ | ⟨k, hk, heq, hlt, hmin, hfirst⟩
        · refine Or.inr ⟨0, by simp, by omega, ?_, ?_, ?_⟩
          · simpa using hyv
          · intro z hz
            rcases List.mem_cons.1 hz with rfl | hz
            · simp
            · simpa using hmin z hz
          · intro j hj; omega
        · refine Or.inr ⟨k + 1, by simpa using Nat.succ_lt_succ hk, by omega, ?_, ?_, ?_⟩
          · rw [List.get_cons_succ]
            exact hlt.trans hyv
          · intro z hz
            rcases List.mem_cons.1 hz with rfl | hz
            · rw [List.get_cons_succ]
              exact le_of_lt hlt
            · rw [List.get_cons_succ]
              exact hmin z hz
          · intro j hj
            match j, hj with
            | 0, hj =>
                rw [List.get_cons_succ]
                exact hlt
            | j + 1, hj =>
                rw [List.get_cons_succ, List.get_cons_succ]
                exact hfirst j (by omega)
      · rw [argminGo, if_neg hyv]
        rcases ih bv bi (i + 1) with ⟨heq, hmin⟩ | ⟨k, hk, heq, hlt, hmin, hfirst⟩
        · refine Or.inl ⟨heq, ?_⟩
          intro z hz
          rcases List.mem_cons.1 hz with rfl | hz
          · exact not_lt.1 hyv
          · exact hmin z hz
        · refine Or.inr ⟨k + 1, by simpa using Nat.succ_lt_succ hk, by omega, ?_, ?_, ?_⟩
          · rw [List.get_cons_succ]
            exact hlt
          · intro z hz
            rcases List.mem_cons.1 hz with rfl | hz
            · rw [List.get_cons_succ]
              exact le_of_lt (hlt.trans_le (not_lt.1 hyv))
            · rw [List.get_cons_succ]
              exact hmin z hz
          · intro j hj
            match j, hj with
            | 0, hj =>
                rw [List.get_cons_succ]
                exact hlt.trans_le (not_lt.1 hyv)
            | j + 1, hj =>
                rw [List.get_cons_succ, List.get_cons_succ]
                exact hfirst j (by omega)

/-- Specification of np.argmin on a nonempty list: the returned index is in
range, indexes a minimal element, and every strictly earlier element is
strictly larger (first-occurrence tie-break). -/
lemma argminList_spec (l : List ℚ) (d : ℕ) (h : argminList l = some d) :
    ∃ hd : d < l.length,
      (∀ j, (hj : j < l.length) → l.get ⟨d, hd⟩ ≤ l.get ⟨j, hj⟩) ∧
      ∀ j, (hj : j < d) → l.get ⟨d, hd⟩ < l.get ⟨j, hj.trans hd⟩ := by
  match l with
  | [] => simp [argminList] at h
  | x :: xs =>
      rw [argminList, Option.some_inj] at h
      rcases argminGo_spec xs x 0 1 with ⟨heq, hmin⟩ | ⟨k, hk, heq, hlt, hmin, hfirst⟩
      · subst h
        rw [heq]
        refine ⟨by simp, ?_, ?_⟩
        · intro j hj
          match j, hj with
          | 0, hj => simp
          | j + 1, hj =>
              rw [List.get_cons_succ]
              exact hmin _ (List.get_mem xs j (by simpa using hj))
        · intro j hj; omega
      · subst h
        rw [heq]
        have hd : 1 + k < (x :: xs).length := by simp; omega
        have hget : (x :: xs).get ⟨1 + k, hd⟩ = xs.get ⟨k, hk⟩ := by
          have h1k : 1 + k = k + 1 := by omega
          simp only [h1k, List.get_cons_succ]
        refine ⟨hd, ?_, ?_⟩
        · intro j hj
          match j, hj with
          | 0, hj =>
              rw [hget]
              exact le_of_lt hlt
          | j + 1, hj =>
              rw [hget, List.get_cons_succ]
              exact hmin _ (List.get_mem xs j (by simpa using hj))
        · intro j hj
          match j, hj with
          | 0, hj =>
              rw [hget]
              exact hlt
          | j + 1, hj =>
              rw [hget, List.get_cons_succ]
              exact hfirst j (by omega)

/-- np.argmin succeeds on a nonempty list. -/
lemma argminList_isSome (l : List ℚ) (h : l ≠ []) : ∃ d, argminList l = some d := by
  match l with
  | [] => exact absurd rfl h
  | x :: xs => exact ⟨argminGo xs x 0 1, rfl⟩

/-- Length of the distance list scanned by the nearest-point search. -/
lemma distList_length (hyp : ℚ → ℚ → ℚ) (ta : TrajectoryAnalyzer)
    (vs : VehicleState) (h : WFanalyzer ta) :
    (distList hyp ta vs).length = ta.x_.length - ta.ind_old := by
  obtain ⟨he, hy, _, _, hpos, hind⟩ := h
  simp [distList, dxList, dyList, sliceList, List.length_zipWith, he, hy]

/-- C4: across calls of ToTrajectoryFrame the cursor ind_old never
decreases: each successful call leaves every path array and ind_end
unchanged and advances ind_old by exactly the offset of the
minimum-distance point of the scanned suffix (a non-negative offset, ties
broken by the lowest index); nothing ever resets the cursor. -/
theorem C4_ToTrajectoryFrame_cursor_monotone
    (hyp : ℚ → ℚ → ℚ) (cosf sinf : ℚ → ℚ) (piQ : ℚ)
    (ta : TrajectoryAnalyzer) (vs : VehicleState)
    (out : TrajFrameOut) (ta2 : TrajectoryAnalyzer)
    (h : ToTrajectoryFrame hyp cosf sinf piQ ta vs = some (out, ta2)) :
    ta.ind_old ≤ ta2.ind_old ∧
    ta2.x_ = ta.x_ ∧ ta2.y_ = ta.y_ ∧ ta2.yaw_ = ta.yaw_ ∧ ta2.k_ = ta.k_ ∧
    ta2.ind_end = ta.ind_end ∧
    ∃ d, ta2.ind_old = ta.ind_old + d ∧
      ∃ hd : d < (distList hyp ta vs).length,
        (∀ j, (hj : j < (distList hyp ta vs).length) →
          (distList hyp ta vs).get ⟨d, hd⟩ ≤ (distList hyp ta vs).get ⟨j, hj⟩) ∧
        ∀ j, (hj : j < d) →
          (distList hyp ta vs).get ⟨d, hd⟩ < (distList hyp ta vs).get ⟨j, hj.trans hd⟩ := by
  unfold ToTrajectoryFrame at h
  split at h
  · exact Option.noConfusion h
  · rename_i ind_add harg
    split at h
    · rename_i dxv dyv hdx hdy
      dsimp only at h
      split at h
      · rename_i yaw_ref k_ref hyawget hkget
        simp only [Option.some.injEq, Prod.mk.injEq] at h
        obtain ⟨hout, hta⟩ := h
        subst hta
        refine ⟨Nat.le_add_right _ _, rfl, rfl, rfl, rfl, rfl, ind_add, rfl, ?_⟩
        obtain ⟨hd, hmin, hfirst⟩ := argminList_spec _ _ harg
        exact ⟨hd, hmin, hfirst⟩
      · exact Option.noConfusion h
    · exact Option.noConfusion h

/-- C4 witness: a concrete successful call on a one-point path, cursor
staying at 0 (the argmin offset is 0). -/
theorem C4_witness :
    ta0.ind_old ≤ ta0.ind_old ∧
    ta0.x_ = ta0.x_ ∧ ta0.y_ = ta0.y_ ∧ ta0.yaw_ = ta0.yaw_ ∧ ta0.k_ = ta0.k_ ∧
    ta0.ind_end = ta0.ind_end ∧
    ∃ d, ta0.ind_old = ta0.ind_old + d ∧
      ∃ hd : d < (distList hyp0 ta0 vs0).length,
        (∀ j, (hj : j < (distList hyp0 ta0 vs0).length) →
          (distList hyp0 ta0 vs0).get ⟨d, hd⟩ ≤ (distList hyp0 ta0 vs0).get ⟨j, hj⟩) ∧
        ∀ j, (hj : j < d) →
          (distList hyp0 ta0 vs0).get ⟨d, hd⟩ < (distList hyp0 ta0 vs0).get ⟨j, hj.trans hd⟩ :=
  C4_ToTrajectoryFrame_cursor_monotone hyp0 cos0 sin0 0 ta0 vs0 out0 ta0
    (by simp [ToTrajectoryFrame, distList, dxList, dyList, sliceList, argminList, argminGo,
              hyp0, cos0, sin0, ta0, vs0, out0, mkTrajectoryAnalyzer, pi_2_pi])

/-- C8: an analyzer built from non-empty equal-length arrays is
well-formed, and on every well-formed analyzer ToTrajectoryFrame scans a
non-empty suffix, succeeds (so the reads of yaw_ and k_ at the advanced
cursor are in bounds), and re-establishes the invariant
ind_old ≤ len - 1; the empty-suffix path-exhaustion condition is
unreachable for a non-empty path. -/
theorem C8_ToTrajectoryFrame_inbounds
    (hyp : ℚ → ℚ → ℚ) (cosf sinf : ℚ → ℚ) (piQ : ℚ)
    (x y yaw k : List ℚ)
    (hx : x ≠ []) (hy : y.length = x.length)
    (hyaw : yaw.length = x.length) (hk : k.length = x.length) :
    WFanalyzer (mkTrajectoryAnalyzer x y yaw k) ∧
    ∀ ta vs, WFanalyzer ta →
      distList hyp ta vs ≠ [] ∧
      ∃ out ta2, ToTrajectoryFrame hyp cosf sinf piQ ta vs = some (out, ta2) ∧
        WFanalyzer ta2 := by
  constructor
  · exact ⟨rfl, hy, hyaw, hk, List.length_pos.2 hx, Nat.zero_le _⟩
  · intro ta vs hwf
    obtain ⟨he, hylen, hyawlen, hklen, hpos, hind⟩ := hwf
    have hlen : (distList hyp ta vs).length = ta.x_.length - ta.ind_old :=
      distList_length hyp ta vs ⟨he, hylen, hyawlen, hklen, hpos, hind⟩
    have hindlt : ta.ind_old < ta.x_.length := by omega
    have hne : distList hyp ta vs ≠ [] := by
      intro hnil
      rw [hnil] at hlen
      simp only [List.length_nil] at hlen
      omega
    refine ⟨hne, ?_⟩
    obtain ⟨d, hd⟩ := argminList_isSome _ hne
    obtain ⟨hdlt, -, -⟩ := argminList_spec _ _ hd
    have hd_dx : d < (dxList ta vs).length := by
      simp only [dxList, sliceList, List.length_map, List.length_drop,
                 List.length_take, he]
      omega
    have hd_dy : d < (dyList ta vs).length := by
      simp only [dyList, sliceList, List.length_map, List.length_drop,
                 List.length_take, he, hylen]
      omega
    have hyawget : ta.ind_old + d < ta.yaw_.length := by
      rw [hyawlen]; omega
    have hkget : ta.ind_old + d < ta.k_.length := by
      rw [hklen]; omega
    unfold ToTrajectoryFrame
    simp only [hd, List.get?_eq_get hd_dx, List.get?_eq_get hd_dy,
               List.get?_eq_get hyawget, List.get?_eq_get hkget]
    refine ⟨_, _, rfl, he, hylen, hyawlen, hklen, hpos, ?_⟩
    show ta.ind_old + d ≤ ta.x_.length - 1
    omega

/-- C8 witness: the one-point path analyzer is well-formed and every
well-formed analyzer is handled safely. -/
theorem C8_witness :
    WFanalyzer (mkTrajectoryAnalyzer [0] [0] [0] [0]) ∧
    ∀ ta vs, WFanalyzer ta →
      distList hyp0 ta vs ≠ [] ∧
      ∃ out ta2, ToTrajectoryFrame hyp0 cos0 sin0 0 ta vs = some (out, ta2) ∧
        WFanalyzer ta2 :=
  C8_ToTrajectoryFrame_inbounds hyp0 cos0 sin0 0 [0] [0] [0] [0]
    (by simp) rfl rfl rfl

/-- C5: in REVERSE gear ComputeFeedForward returns exactly
(l_f + l_r) * ref_curvature, independent of the vehicle speed (a field of
the quantified state) and of the gain matrix K. -/
theorem C5_ComputeFeedForward_reverse (cfg : Config) (vs : VehicleState)
    (k_ref : ℚ) (K : Matrix (Fin 1) (Fin 4) ℚ)
    (h : vs.gear = Gear.GEAR_REVERSE) :
    LatController.ComputeFeedForward cfg vs k_ref K = (cfg.l_f + cfg.l_r) * k_ref := by
  simp [LatController.ComputeFeedForward, h]

/-- C5 witness: k_ref = 0.1 and wheelbase 2.8 with nonzero speed and a
zero gain matrix; the feedforward term is wheelbase times curvature. -/
theorem C5_witness :
    LatController.ComputeFeedForward cfg1 vsRev (1/10) 0 = (cfg1.l_f + cfg1.l_r) * (1/10) :=
  C5_ComputeFeedForward_reverse cfg1 vsRev (1/10) 0 rfl

/-- C6: the longitudinal command is the proportional term
0.3 * (target_speed - v) except that below the stopping threshold 11.0 it
is forced to -3.0 for v above 2.0 and to -1.0 for v below -2.0; in
particular dist = 5 with v = 10 yields -3.0. -/
theorem C6_LonController_spec (target_speed : ℚ) (vs : VehicleState) (dist : ℚ) :
    (¬ dist < 11 → LonController.ComputeControlCommand target_speed vs dist
        = 3 / 10 * (target_speed - vs.v)) ∧
    (dist < 11 → vs.v > 2 →
      LonController.ComputeControlCommand target_speed vs dist = -3) ∧
    (dist < 11 → vs.v < -2 →
      LonController.ComputeControlCommand target_speed vs dist = -1) ∧
    LonController.ComputeControlCommand target_speed { vs with v := 10 } 5 = -3 := by
  refine ⟨?_, ?_, ?_, ?_⟩
  · intro hge
    simp [LonController.ComputeControlCommand, if_neg hge]
  · intro hlt hv
    simp [LonController.ComputeControlCommand, if_pos hlt, if_pos hv]
  · intro hlt hv
    have h2 : ¬ vs.v > 2 := by linarith
    simp [LonController.ComputeControlCommand, if_pos hlt, if_neg h2, if_pos hv]
  · norm_num [LonController.ComputeControlCommand]

/-- C6 witness: far from the goal the command is proportional; at
dist = 5 with v = 10 it is -3; at dist = 5 with v = -3 it is -1. -/
theorem C6_witness :
    LonController.ComputeControlCommand 0 vs0 20 = 3 / 10 * (0 - vs0.v) ∧
    LonController.ComputeControlCommand 0 { vs0 with v := 10 } 5 = -3 ∧
    LonController.ComputeControlCommand 0 { vs0 with v := -3 } 5 = -1 :=
  ⟨(C6_LonController_spec 0 vs0 20).1 (by norm_num),
   (C6_LonController_spec 0 vs0 20).2.2.2,
   (C6_LonController_spec 0 { vs0 with v := -3 } 5).2.2.1 (by norm_num) (by norm_num [vs0])⟩

/-- C10: inside the stopping distance, speeds in the closed band
[-2, 2] never trigger the braking override: the command stays the plain
proportional term. -/
theorem C10_LonController_deadband (target_speed : ℚ) (vs : VehicleState)
    (dist : ℚ) (hdist : dist < 11) (hlo : -2 ≤ vs.v) (hhi : vs.v ≤ 2) :
    LonController.ComputeControlCommand target_speed vs dist
      = 3 / 10 * (target_speed - vs.v) := by
  have h2 : ¬ vs.v > 2 := by linarith
  have h3 : ¬ vs.v < -2 := by linarith
  unfold LonController.ComputeControlCommand
  dsimp only
  rw [if_pos hdist, if_neg h2, if_neg h3]

/-- C10 witness: dist = 5, v = 0 gives the proportional command. -/
theorem C10_witness :
    LonController.ComputeControlCommand 1 vs0 5 = 3 / 10 * (1 - vs0.v) :=
  C10_LonController_deadband 1 vs0 5 (by norm_num) (by norm_num [vs0]) (by norm_num [vs0])

/-- Clamping a steering input from above the bound equals clamping the
bound itself. -/
lemma RegulateInput_steer_high (cfg : Config) (delta a : ℚ)
    (h : cfg.max_steer_angle < delta) :
    VehicleState.RegulateInput cfg delta a
      = VehicleState.RegulateInput cfg cfg.max_steer_angle a := by
  unfold VehicleState.RegulateInput
  dsimp only
  simp only [Prod.mk.injEq]
  refine ⟨?_, trivial⟩
  split_ifs <;> linarith

/-- Clamping a steering input from below the bound equals clamping the
negated bound itself. -/
lemma RegulateInput_steer_low (cfg : Config) (delta a : ℚ)
    (h : delta < -cfg.max_steer_angle) :
    VehicleState.RegulateInput cfg delta a
      = VehicleState.RegulateInput cfg (-cfg.max_steer_angle) a := by
  unfold VehicleState.RegulateInput
  dsimp only
  simp only [Prod.mk.injEq]
  refine ⟨?_, trivial⟩
  split_ifs <;> linarith

/-- Clamping an acceleration input from above the bound equals clamping
the bound itself. -/
lemma RegulateInput_acc_high (cfg : Config) (delta a : ℚ)
    (h : cfg.max_acceleration < a) :
    VehicleState.RegulateInput cfg delta a
      = VehicleState.RegulateInput cfg delta cfg.max_acceleration := by
  unfold VehicleState.RegulateInput
  dsimp only
  simp only [Prod.mk.injEq]
  refine ⟨trivial, ?_⟩
  split_ifs <;> linarith

/-- Clamping an acceleration input from below the bound equals clamping
the negated bound itself. -/
lemma RegulateInput_acc_low (cfg : Config) (delta a : ℚ)
    (h : a < -cfg.max_acceleration) :
    VehicleState.RegulateInput cfg delta a
      = VehicleState.RegulateInput cfg delta (-cfg.max_acceleration) := by
  unfold VehicleState.RegulateInput
  dsimp only
  simp only [Prod.mk.injEq]
  refine ⟨trivial, ?_⟩
  split_ifs <;> linarith

/-- C7: a steering input beyond either saturation bound produces exactly
the state produced by the corresponding boundary value, and likewise for
an acceleration input beyond either bound. -/
theorem C7_UpdateVehicleState_saturation (cosf sinf tanf : ℚ → ℚ)
    (cfg : Config) (s : VehicleState) (delta a e_cg theta_e : ℚ) (gear : Gear) :
    (cfg.max_steer_angle < delta →
      VehicleState.UpdateVehicleState cosf sinf tanf cfg s delta a e_cg theta_e gear
        = VehicleState.UpdateVehicleState cosf sinf tanf cfg s
            cfg.max_steer_angle a e_cg theta_e gear) ∧
    (delta < -cfg.max_steer_angle →
      VehicleState.UpdateVehicleState cosf sinf tanf cfg s delta a e_cg theta_e gear
        = VehicleState.UpdateVehicleState cosf sinf tanf cfg s
            (-cfg.max_steer_angle) a e_cg theta_e gear) ∧
    (cfg.max_acceleration < a →
      VehicleState.UpdateVehicleState cosf sinf tanf cfg s delta a e_cg theta_e gear
        = VehicleState.UpdateVehicleState cosf sinf tanf cfg s
            delta cfg.max_acceleration e_cg theta_e gear) ∧
    (a < -cfg.max_acceleration →
      VehicleState.UpdateVehicleState cosf sinf tanf cfg s delta a e_cg theta_e gear
        = VehicleState.UpdateVehicleState cosf sinf tanf cfg s
            delta (-cfg.max_acceleration) e_cg theta_e gear) := by
  refine ⟨fun h => ?_, fun h => ?_, fun h => ?_, fun h => ?_⟩
  · unfold VehicleState.UpdateVehicleState
    rw [RegulateInput_steer_high cfg delta a h]
  · unfold VehicleState.UpdateVehicleState
    rw [RegulateInput_steer_low cfg delta a h]
  · unfold VehicleState.UpdateVehicleState
    rw [RegulateInput_acc_high cfg delta a h]
  · unfold VehicleState.UpdateVehicleState
    rw [RegulateInput_acc_low cfg delta a h]

/-- C7 witness: with max_steer_angle = 1 a command of 5 acts as the
boundary 1, and with max_acceleration = 2 a command of 7 acts as the
boundary 2. -/
theorem C7_witness :
    VehicleState.UpdateVehicleState cos0 sin0 tan0 cfg1 vs0 5 0 0 0 Gear.GEAR_DRIVE
      = VehicleState.UpdateVehicleState cos0 sin0 tan0 cfg1 vs0
          cfg1.max_steer_angle 0 0 0 Gear.GEAR_DRIVE ∧
    VehicleState.UpdateVehicleState cos0 sin0 tan0 cfg1 vs0 0 7 0 0 Gear.GEAR_DRIVE
      = VehicleState.UpdateVehicleState cos0 sin0 tan0 cfg1 vs0
          0 cfg1.max_acceleration 0 0 Gear.GEAR_DRIVE :=
  ⟨(C7_UpdateVehicleState_saturation cos0 sin0 tan0 cfg1 vs0 5 0 0 0
      Gear.GEAR_DRIVE).1 (by norm_num [cfg1]),
   (C7_UpdateVehicleState_saturation cos0 sin0 tan0 cfg1 vs0 0 7 0 0
      Gear.GEAR_DRIVE).2.2.1 (by norm_num [cfg1])⟩

/-- The clamp of RegulateOutput lands in the symmetric speed band when the
configured maximum speed is non-negative. -/
lemma RegulateOutput_bound (cfg : Config) (v : ℚ) (h : 0 ≤ cfg.max_speed) :
    |VehicleState.RegulateOutput cfg v| ≤ cfg.max_speed / (18 / 5) := by
  have hms : 0 ≤ cfg.max_speed / (18 / 5) := by positivity
  unfold VehicleState.RegulateOutput
  dsimp only
  rw [abs_le]
  constructor <;> split_ifs <;> linarith

/-- C9: for every pre-state (clamped or not) and every input, the speed
after UpdateVehicleState satisfies the bound abs v ≤ max_speed / 3.6: the
invariant is established by every update, not merely preserved. -/
theorem C9_UpdateVehicleState_speed_bound (cosf sinf tanf : ℚ → ℚ)
    (cfg : Config) (h : 0 ≤ cfg.max_speed)
    (s : VehicleState) (delta a e_cg theta_e : ℚ) (gear : Gear) :
    |(VehicleState.UpdateVehicleState cosf sinf tanf cfg s delta a e_cg theta_e gear).v|
      ≤ cfg.max_speed / (18 / 5) := by
  unfold VehicleState.UpdateVehicleState
  dsimp only
  exact RegulateOutput_bound cfg _ h

/-- C9 witness: a huge acceleration from a pre-state already at rest still
lands the speed inside the band for the concrete configuration. -/
theorem C9_witness :
    |(VehicleState.UpdateVehicleState cos0 sin0 tan0 cfg1 vs0 0 100 0 0
        Gear.GEAR_DRIVE).v| ≤ cfg1.max_speed / (18 / 5) :=
  C9_UpdateVehicleState_speed_bound cos0 sin0 tan0 cfg1 (by norm_num [cfg1])
    vs0 0 100 0 0 Gear.GEAR_DRIVE

/-- The while-loop harness and the spec's until-loop harness are the same
iteration (the loop guard diff > tol is the complement of the stop
condition diff ≤ tol). -/
lemma riccatiIter_eq_specIterate {n : ℕ}
    (step : Matrix (Fin n) (Fin n) ℚ → Matrix (Fin n) (Fin n) ℚ) (tol : ℚ) :
    ∀ (fuel : ℕ) (P : Matrix (Fin n) (Fin n) ℚ),
      LatController.riccatiIter step tol fuel P
        = LatController.specIterate step tol fuel P := by
  intro fuel
  induction fuel with
  | zero => intro P; rfl
  | succ f ih =>
      intro P
      rw [LatController.riccatiIter, LatController.specIterate]
      by_cases h : LatController.matMaxAbs (step P - P) ≤ tol
      · rw [if_neg (not_lt.2 h), if_pos h]
      · rw [if_pos (not_le.1 h), if_neg h]
        exact ih _

/-- With the zero cross term M the code's Riccati body is exactly the
spec's update formula. -/
lemma riccatiStep_zero_cross {n m : ℕ}
    (pinv : Matrix (Fin m) (Fin m) ℚ → Matrix (Fin m) (Fin m) ℚ)
    (A Q : Matrix (Fin n) (Fin n) ℚ) (B : Matrix (Fin n) (Fin m) ℚ)
    (R : Matrix (Fin m) (Fin m) ℚ) :
    LatController.riccatiStep pinv A Q B (0 : Matrix (Fin n) (Fin m) ℚ) R
      = LatController.specRiccatiStep pinv A Q B R := by
  funext P
  unfold LatController.riccatiStep LatController.specRiccatiStep
  rw [add_zero, Matrix.transpose_zero, add_zero]

/-- C1: SolveLQRProblem is exactly the fixed-point Riccati iteration the
spec describes: start at P = Q, update
P = AᵀPA − AᵀPB (R + BᵀPB)⁻¹ BᵀPA + Q (the loop inverse being the
code's pseudo-inverse) until the elementwise change reaches the tolerance
or the iteration budget runs out, then return
K = (BᵀPB + R)⁻¹ (BᵀPA) from the last iterate. -/
theorem C1_SolveLQRProblem_refines_spec {n m : ℕ}
    (pinv : Matrix (Fin m) (Fin m) ℚ → Matrix (Fin m) (Fin m) ℚ)
    (A : Matrix (Fin n) (Fin n) ℚ) (B : Matrix (Fin n) (Fin m) ℚ)
    (Q : Matrix (Fin n) (Fin n) ℚ) (R : Matrix (Fin m) (Fin m) ℚ)
    (tolerance : ℚ) (max_num_iteration : ℕ) :
    LatController.SolveLQRProblem pinv A B Q R tolerance max_num_iteration
      = LatController.specSolveLQR pinv A B Q R tolerance max_num_iteration := by
  unfold LatController.SolveLQRProblem LatController.specSolveLQR
  simp only [Matrix.transpose_zero, add_zero, riccatiStep_zero_cross,
             riccatiIter_eq_specIterate]

/-- C2 counterexample: all-zero 1-by-1 inputs satisfy the dimension
precondition and the Riccati loop runs fine through the exact 1-by-1
Moore-Penrose pseudo-inverse, but the final gain inversion
np.linalg.inv(BᵀPB + R) hits a singular matrix and the solve fails. -/
theorem C2_counterexample :
    LatController.SolveLQRProblem pinv1 (0 : Matrix (Fin 1) (Fin 1) ℚ)
      (0 : Matrix (Fin 1) (Fin 1) ℚ) (0 : Matrix (Fin 1) (Fin 1) ℚ)
      (0 : Matrix (Fin 1) (Fin 1) ℚ) (1/100) 100 = none := by
  have hstep : LatController.riccatiStep pinv1 (0 : Matrix (Fin 1) (Fin 1) ℚ)
      (0 : Matrix (Fin 1) (Fin 1) ℚ) (0 : Matrix (Fin 1) (Fin 1) ℚ)
      (0 : Matrix (Fin 1) (Fin 1) ℚ) (0 : Matrix (Fin 1) (Fin 1) ℚ)
      = fun _ => (0 : Matrix (Fin 1) (Fin 1) ℚ) := by
    funext P
    unfold LatController.riccatiStep
    simp
  have hfix : ∀ fuel,
      LatController.riccatiIter
        (fun _ => (0 : Matrix (Fin 1) (Fin 1) ℚ)) (1/100) fuel 0 = 0 := by
    intro fuel
    induction fuel with
    | zero => rfl
    | succ f ih =>
        rw [LatController.riccatiIter]
        split_ifs
        · exact ih
        · rfl
  have hdet : (0 : Matrix (Fin 1) (Fin 1) ℚ).det = 0 := Matrix.det_zero ⟨0⟩
  unfold LatController.SolveLQRProblem
  dsimp only
  rw [hstep, hfix 100]
  simp [LatController.npLinalgInv, hdet]

/-- np.linalg.inv succeeds exactly on nonsingular matrices. -/
lemma npLinalgInv_isSome {k : ℕ} (M : Matrix (Fin k) (Fin k) ℚ) :
    (LatController.npLinalgInv M).isSome ↔ M.det ≠ 0 := by
  unfold LatController.npLinalgInv
  split_ifs with h <;> simp [h]

/-- C2 (amended): the loop inversion is a pseudo-inverse and total, but
the final gain is computed with the ordinary inverse, so the solve
succeeds exactly when BᵀPB + R is nonsingular at the last iterate. -/
theorem C2_SolveLQRProblem_success_iff {n m : ℕ}
    (pinv : Matrix (Fin m) (Fin m) ℚ → Matrix (Fin m) (Fin m) ℚ)
    (A : Matrix (Fin n) (Fin n) ℚ) (B : Matrix (Fin n) (Fin m) ℚ)
    (Q : Matrix (Fin n) (Fin n) ℚ) (R : Matrix (Fin m) (Fin m) ℚ)
    (tolerance : ℚ) (max_num_iteration : ℕ) :
    (LatController.SolveLQRProblem pinv A B Q R tolerance max_num_iteration).isSome
      ↔ (Bᵀ * (LatController.riccatiIter
            (LatController.riccatiStep pinv A Q B 0 R)
            tolerance max_num_iteration Q) * B + R).det ≠ 0 := by
  unfold LatController.SolveLQRProblem
  rw [Option.isSome_map', npLinalgInv_isSome]

/-- C3 counterexample: at θ = 0 + 2π·2 the normalized angle is 2π, which
lies outside (−π, π] and differs from pi_2_pi 0 = 0, so neither the range
claim nor 2πk-periodicity holds for every real angle. -/
theorem C3_counterexample :
    pi_2_pi Real.pi (0 + 2 * Real.pi * 2) ≠ pi_2_pi Real.pi 0 ∧
    Real.pi < pi_2_pi Real.pi (0 + 2 * Real.pi * 2) := by
  have hpi := Real.pi_pos
  have h1 : pi_2_pi Real.pi (0 + 2 * Real.pi * 2) = 2 * Real.pi := by
    unfold pi_2_pi
    have hc : 0 + 2 * Real.pi * 2 > Real.pi := by nlinarith
    rw [if_pos hc]
    ring
  have h0 : pi_2_pi Real.pi 0 = 0 := by
    unfold pi_2_pi
    have hc1 : ¬ (0 : ℝ) > Real.pi := by nlinarith
    have hc2 : ¬ (0 : ℝ) < -Real.pi := by nlinarith
    rw [if_neg hc1, if_neg hc2]
  rw [h1, h0]
  constructor
  · nlinarith
  · nlinarith

/-- C3 (amended): a single wrap is performed, so on the interval
[−3π, 3π] the result lies in the closed interval [−π, π] (the endpoint −π
is attained, so the half-open (−π, π] is not achieved), and invariance
under adding 2π holds on the principal branch (−π, π]; full
2πk-periodicity fails. -/
theorem C3_pi_2_pi_amended (θ : ℝ) :
    ((-(3 * Real.pi) ≤ θ ∧ θ ≤ 3 * Real.pi) →
      -Real.pi ≤ pi_2_pi Real.pi θ ∧ pi_2_pi Real.pi θ ≤ Real.pi) ∧
    ((-Real.pi < θ ∧ θ ≤ Real.pi) →
      pi_2_pi Real.pi (θ + 2 * Real.pi) = pi_2_pi Real.pi θ) := by
  constructor
  · rintro ⟨h1, h2⟩
    unfold pi_2_pi
    split_ifs with ha hb <;> constructor <;> linarith
  · rintro ⟨h1, h2⟩
    unfold pi_2_pi
    have hc1 : θ + 2 * Real.pi > Real.pi := by linarith
    have hc2 : ¬ θ > Real.pi := by linarith
    have hc3 : ¬ θ < -Real.pi := by linarith
    rw [if_pos hc1, if_neg hc2, if_neg hc3]
    ring

/-- C3 witness: θ = 0 is inside both hypothesis ranges; its normalization
is in the closed band and is invariant under one added turn. -/
theorem C3_witness :
    (-Real.pi ≤ pi_2_pi Real.pi 0 ∧ pi_2_pi Real.pi 0 ≤ Real.pi) ∧
    pi_2_pi Real.pi (0 + 2 * Real.pi) = pi_2_pi Real.pi 0 :=
  ⟨(C3_pi_2_pi_amended 0).1
      ⟨by nlinarith [Real.pi_pos], by nlinarith [Real.pi_pos]⟩,
   (C3_pi_2_pi_amended 0).2
      ⟨by nlinarith [Real.pi_pos], by nlinarith [Real.pi_pos]⟩⟩
